import Mathlib

/-!
Shallow embedding of the core algorithmic parts of the `horrendous-pdf`
PDF viewer/editor (tiled rendering with generation-based cancellation,
LRU tile cache, continuous page layout, dual undo/redo stacks, text-block
edit model, and text selection), together with proofs settling the
specification claims about them.

Floating-point quantities of the source (zoom factors, scene coordinates,
page sizes in points) are modelled as rationals; Python lists used as
stacks (append/pop at the end) are modelled as Lean lists with the most
recent element at the head, and the LRU `OrderedDict` is modelled as a
list in insertion order (oldest first, `move_to_end` appends).
-/

/-! ### Zoom (src/graphics_view.py, `zoom_in` / `zoom_out` / `zoom_reset` / `set_zoom`)

`zoom_in`:  `self._zoom = min(self._zoom * 1.2, 5.0)`
`zoom_out`: `self._zoom = max(self._zoom / 1.2, 0.5)`
`zoom_reset`: `self._zoom = 1.0`
`set_zoom`: `self._zoom = max(0.5, min(factor, 5.0))`
The view starts with `self._zoom = 1.0`. -/

def zoom_in (z : ℚ) : ℚ := min (z * (6/5)) 5

def zoom_out (z : ℚ) : ℚ := max (z / (6/5)) (1/2)

def zoom_reset (_z : ℚ) : ℚ := 1

def set_zoom (_z factor : ℚ) : ℚ := max (1/2) (min factor 5)

/-- One user-visible zoom operation of the view. -/
inductive ZoomOp
  | zin
  | zout
  | reset
  | set (factor : ℚ)

def applyZoomOp (z : ℚ) : ZoomOp → ℚ
  | .zin => zoom_in z
  | .zout => zoom_out z
  | .reset => zoom_reset z
  | .set f => set_zoom z f

def applyZoomOps (z : ℚ) (ops : List ZoomOp) : ℚ :=
  ops.foldl applyZoomOp z

/-- The initial zoom factor of the view (`self._zoom = 1.0`). -/
def initialZoom : ℚ := 1

lemma zoomOp_mem_Icc (z : ℚ) (hz0 : 1/2 ≤ z) (hz1 : z ≤ 5) (op : ZoomOp) :
    1/2 ≤ applyZoomOp z op ∧ applyZoomOp z op ≤ 5 := by
  rcases op with _ | _ | _ | f
  · constructor
    · simp only [applyZoomOp, zoom_in, le_min_iff]
      constructor
      · nlinarith
      · norm_num
    · simp only [applyZoomOp, zoom_in]
      exact min_le_right _ _
  · constructor
    · simp only [applyZoomOp, zoom_out]
      exact le_max_right _ _
    · simp only [applyZoomOp, zoom_out, max_le_iff]
      constructor
      · rw [div_le_iff₀ (by norm_num : (0:ℚ) < 6/5)]
        nlinarith
      · norm_num
  · simp [applyZoomOp, zoom_reset]
    norm_num
  · constructor
    · simp only [applyZoomOp, set_zoom]
      exact le_max_left _ _
    · simp only [applyZoomOp, set_zoom, max_le_iff, min_le_iff]
      norm_num

lemma zoomOps_mem_Icc (z : ℚ) (hz0 : 1/2 ≤ z) (hz1 : z ≤ 5) (ops : List ZoomOp) :
    1/2 ≤ applyZoomOps z ops ∧ applyZoomOps z ops ≤ 5 := by
  induction ops generalizing z with
  | nil => exact ⟨hz0, hz1⟩
  | cons op rest ih =>
    have h := zoomOp_mem_Icc z hz0 hz1 op
    simpa [applyZoomOps] using ih (applyZoomOp z op) h.1 h.2

/-- C10. Zoom clamp invariant: starting from the initial zoom factor 1.0, after
any sequence of zoom operations (`zoom_in` multiplying by 1.2 capped at 5.0,
`zoom_out` dividing by 1.2 floored at 0.5, `zoom_reset` setting 1.0, and
`set_zoom` clamping an arbitrary factor into [0.5, 5.0]) the view's zoom
factor always lies in the closed interval [0.5, 5.0]. -/
theorem zoom_clamp_invariant (ops : List ZoomOp) :
    1/2 ≤ applyZoomOps initialZoom ops ∧ applyZoomOps initialZoom ops ≤ 5 :=
  zoomOps_mem_Icc initialZoom (by norm_num [initialZoom]) (by norm_num [initialZoom]) ops

/-! ### Continuous page layout lookup (src/graphics_view.py, `page_at_y`)

```
def page_at_y(self, y):
    for i in range(len(self._page_offsets) - 1, -1, -1):
        if y >= self._page_offsets[i]:
            return i
    return 0
```
-/

def pageAtYGo (offsets : List ℚ) (y : ℚ) : ℕ → ℕ
  | 0 => 0
  | n + 1 => if offsets.getD n 0 ≤ y then n else pageAtYGo offsets y n

def page_at_y (offsets : List ℚ) (y : ℚ) : ℕ :=
  pageAtYGo offsets y offsets.length

lemma pageAtYGo_spec (offsets : List ℚ) (y : ℚ) (n : ℕ)
    (hex : ∃ i, i < n ∧ offsets.getD i 0 ≤ y) :
    pageAtYGo offsets y n < n ∧
    offsets.getD (pageAtYGo offsets y n) 0 ≤ y ∧
    ∀ j, pageAtYGo offsets y n < j → j < n → y < offsets.getD j 0 := by
  induction n with
  | zero =>
    obtain ⟨i, hi, _⟩ := hex
    exact absurd hi (Nat.not_lt_zero i)
  | succ n ih =>
    have hstep : pageAtYGo offsets y (n + 1) =
        if offsets.getD n 0 ≤ y then n else pageAtYGo offsets y n := rfl
    by_cases h : offsets.getD n 0 ≤ y
    · rw [hstep, if_pos h]
      refine ⟨Nat.lt_succ_self n, h, ?_⟩
      intro j hj1 hj2
      omega
    · rw [hstep, if_neg h]
      have hex' : ∃ i, i < n ∧ offsets.getD i 0 ≤ y := by
        obtain ⟨i, hi, hle⟩ := hex
        refine ⟨i, ?_, hle⟩
        rcases Nat.lt_succ_iff_lt_or_eq.mp hi with h' | h'
        · exact h'
        · subst h'; exact absurd hle h
      obtain ⟨ih1, ih2, ih3⟩ := ih hex'
      refine ⟨Nat.lt_succ_of_lt ih1, ih2, ?_⟩
      intro j hj1 hj2
      rcases Nat.lt_succ_iff_lt_or_eq.mp hj2 with h' | h'
      · exact ih3 j hj1 h'
      · subst h'
        exact lt_of_not_le h

/-- C7. For every page layout and y coordinate such that some page offset is
≤ y, `page_at_y` returns the highest page index whose y offset is ≤ y: the
returned index i is in range, satisfies offsets[i] ≤ y (so a y exactly equal
to a page's offset belongs to that page), and offsets[j] > y for every j > i
within the layout. -/
theorem page_at_y_highest_le (offsets : List ℚ) (y : ℚ)
    (hex : ∃ i, i < offsets.length ∧ offsets.getD i 0 ≤ y) :
    page_at_y offsets y < offsets.length ∧
    offsets.getD (page_at_y offsets y) 0 ≤ y ∧
    ∀ j, page_at_y offsets y < j → j < offsets.length →
      y < offsets.getD j 0 :=
  pageAtYGo_spec offsets y offsets.length hex

/-- Witness for C7: the layout [0, 30, 60] at y = 30 (a y exactly at page 1's
offset): the result is in range, its offset is ≤ 30, and every later page
offset exceeds 30. -/
theorem page_at_y_highest_le_witness :
    page_at_y [0, 30, 60] 30 < 3 ∧
    ([(0:ℚ), 30, 60].getD (page_at_y [0, 30, 60] 30) 0 ≤ 30) ∧
    ∀ j, page_at_y [0, 30, 60] 30 < j → j < 3 →
      (30:ℚ) < [(0:ℚ), 30, 60].getD j 0 := by
  have h := page_at_y_highest_le [0, 30, 60] 30 ⟨0, by norm_num⟩
  simpa using h

/-! ### Continuous page layout build (src/main_window.py, `_build_page_layout`)

```
scale = self._dpi / 72.0
y_offset = 0
for page_num in range(self._total_pages):
    rect = page.rect
    pw = int(rect.width * scale)
    ph = int(rect.height * scale)
    self._page_offsets.append(y_offset)
    self._page_heights.append(ph)
    self._page_widths.append(pw)
    ...
    y_offset += ph + self.PAGE_GAP
```
with `PAGE_GAP = 20`.  Python's `int()` truncates toward zero. -/

def PAGE_GAP : ℤ := 20

/-- Python `int()` applied to a rational: truncation toward zero. -/
def pyInt (q : ℚ) : ℤ := if q < 0 then -Int.floor (-q) else Int.floor q

/-- Pixel size of a page dimension: `int(points * (dpi / 72))`. -/
def pagePixelSize (dpi pts : ℚ) : ℤ := pyInt (pts * (dpi / 72))

/-- Rounding to the nearest integer (the spec's `round`), half away from zero
rounded up; used only to compare the code against the claim's formula. -/
def specRound (q : ℚ) : ℤ := Int.floor (q + 1/2)

/-- The layout table rows `(y_offset, pixel_width, pixel_height)` produced by
the loop of `_build_page_layout`, starting from accumulator `y`. -/
def buildPageLayoutAux (dpi : ℚ) (y : ℤ) : List (ℚ × ℚ) → List (ℤ × ℤ × ℤ)
  | [] => []
  | (w, h) :: rest =>
    let pw := pagePixelSize dpi w
    let ph := pagePixelSize dpi h
    (y, pw, ph) :: buildPageLayoutAux dpi (y + ph + PAGE_GAP) rest

/-- `_build_page_layout` restricted to its layout-table output: pages are
given as `(width_points, height_points)` pairs in document order. -/
def build_page_layout (dpi : ℚ) (pages : List (ℚ × ℚ)) : List (ℤ × ℤ × ℤ) :=
  buildPageLayoutAux dpi 0 pages

/-- C6 counterexample: a single 100.6 × 100.6 pt page at DPI 72.  The code
computes `int(100.6 * 72/72) = 100`, while the claim's formula
`round(100.6 * 72/72)` gives 101, so the claimed width equation fails. -/
theorem build_page_layout_round_counterexample :
    (build_page_layout 72 [((503:ℚ)/5, (503:ℚ)/5)]).map (fun e => e.2.1) ≠
      [specRound ((503:ℚ)/5 * ((72:ℚ)/72))] := by
  have h1 : pagePixelSize 72 ((503:ℚ)/5) = 100 := by
    unfold pagePixelSize pyInt
    rw [if_neg (by norm_num)]
    norm_num
  have h2 : specRound ((503:ℚ)/5 * ((72:ℚ)/72)) = 101 := by
    unfold specRound
    norm_num
  simp only [build_page_layout, buildPageLayoutAux, List.map_cons, List.map_nil, h1, h2]
  intro hcontra
  have := List.cons.injEq (100:ℤ) _ 101 ([] : List ℤ) ▸ hcontra
  simp at hcontra

lemma pagePixelSize_nonneg (dpi pts : ℚ) (hd : 0 ≤ dpi) (hp : 0 ≤ pts) :
    0 ≤ pagePixelSize dpi pts := by
  unfold pagePixelSize pyInt
  have hq : 0 ≤ pts * (dpi / 72) := by positivity
  rw [if_neg (not_lt.mpr hq)]
  exact Int.floor_nonneg.mpr hq

lemma buildPageLayoutAux_chain (dpi : ℚ) (hd : 0 ≤ dpi) (y : ℤ)
    (pages : List (ℚ × ℚ)) (hh : ∀ p ∈ pages, 0 ≤ p.2) :
    ((buildPageLayoutAux dpi y pages).map (fun e => e.1)).Chain' (· < ·) := by
  induction pages generalizing y with
  | nil => simp [buildPageLayoutAux]
  | cons p rest ih =>
    obtain ⟨w, h⟩ := p
    have hh0 : (0:ℚ) ≤ h := hh (w, h) (List.mem_cons_self _ _)
    have hrest : ∀ p ∈ rest, (0:ℚ) ≤ p.2 := fun p hp => hh p (List.mem_cons_of_mem _ hp)
    have hph : 0 ≤ pagePixelSize dpi h := pagePixelSize_nonneg dpi h hd hh0
    have hlt : y < y + pagePixelSize dpi h + PAGE_GAP := by
      unfold PAGE_GAP; omega
    have ihc := ih (y + pagePixelSize dpi h + PAGE_GAP) hrest
    show List.Chain' (· < ·)
      (y :: (buildPageLayoutAux dpi (y + pagePixelSize dpi h + PAGE_GAP) rest).map
        (fun e => e.1))
    rw [List.chain'_cons']
    refine ⟨?_, ihc⟩
    intro z hz
    cases rest with
    | nil => simp [buildPageLayoutAux] at hz
    | cons q rest' =>
      obtain ⟨w', h'⟩ := q
      simp only [buildPageLayoutAux, List.map_cons, List.head?_cons, Option.mem_def,
        Option.some.injEq] at hz
      omega

lemma buildPageLayoutAux_sizes (dpi : ℚ) (y : ℤ) (pages : List (ℚ × ℚ)) :
    ∀ i, i < pages.length →
      (buildPageLayoutAux dpi y pages).length = pages.length ∧
      ((buildPageLayoutAux dpi y pages).getD i (0, 0, 0)).2.1 =
        pagePixelSize dpi ((pages.getD i (0, 0)).1) ∧
      ((buildPageLayoutAux dpi y pages).getD i (0, 0, 0)).2.2 =
        pagePixelSize dpi ((pages.getD i (0, 0)).2) := by
  induction pages generalizing y with
  | nil => intro i hi; exact absurd hi (Nat.not_lt_zero i)
  | cons p rest ih =>
    obtain ⟨w, h⟩ := p
    intro i hi
    have hlen : (buildPageLayoutAux dpi y ((w, h) :: rest)).length =
        ((w, h) :: rest).length := by
      show ((y, pagePixelSize dpi w, pagePixelSize dpi h) ::
        buildPageLayoutAux dpi (y + pagePixelSize dpi h + PAGE_GAP) rest).length = _
      simp only [List.length_cons]
      cases rest with
      | nil => rfl
      | cons q rest' =>
        have := (ih (y + pagePixelSize dpi h + PAGE_GAP) 0 (by simp)).1
        omega
    refine ⟨hlen, ?_, ?_⟩ <;>
      (cases i with
       | zero => rfl
       | succ i' =>
         have hi' : i' < rest.length := by simpa using hi
         have := ih (y + pagePixelSize dpi h + PAGE_GAP) i' hi'
         first
          | exact this.2.1
          | exact this.2.2)

lemma buildPageLayoutAux_offset_step (dpi : ℚ) (y : ℤ) (pages : List (ℚ × ℚ)) :
    ∀ i, i + 1 < pages.length →
      ((buildPageLayoutAux dpi y pages).getD (i + 1) (0, 0, 0)).1 =
        ((buildPageLayoutAux dpi y pages).getD i (0, 0, 0)).1 +
          ((buildPageLayoutAux dpi y pages).getD i (0, 0, 0)).2.2 + PAGE_GAP := by
  induction pages generalizing y with
  | nil => intro i hi; simp at hi
  | cons p rest ih =>
    obtain ⟨w, h⟩ := p
    intro i hi
    cases i with
    | zero =>
      cases rest with
      | nil => simp at hi
      | cons q rest' =>
        obtain ⟨w', h'⟩ := q
        rfl
    | succ i' =>
      have hi' : i' + 1 < rest.length := by simpa using hi
      exact ih (y + pagePixelSize dpi h + PAGE_GAP) i' hi'

/-- C6 (amended). Page layout construction: for every document and nonnegative
DPI, with every page height nonnegative, the build computes for each page in
order `pixel_width = int(page_points_width * dpi/72)` (truncation toward zero,
not `round`) and similarly `pixel_height`; the first y offset is 0, each next
offset is the previous offset plus the previous pixel height plus the 20 px
gap, and the offsets are strictly increasing. -/
theorem build_page_layout_spec (dpi : ℚ) (pages : List (ℚ × ℚ))
    (hd : 0 ≤ dpi) (hh : ∀ p ∈ pages, 0 ≤ p.2) :
    (build_page_layout dpi pages).length = pages.length ∧
    (pages ≠ [] → ((build_page_layout dpi pages).getD 0 (0, 0, 0)).1 = 0) ∧
    (∀ i, i < pages.length →
      ((build_page_layout dpi pages).getD i (0, 0, 0)).2.1 =
        pagePixelSize dpi ((pages.getD i (0, 0)).1) ∧
      ((build_page_layout dpi pages).getD i (0, 0, 0)).2.2 =
        pagePixelSize dpi ((pages.getD i (0, 0)).2)) ∧
    (∀ i, i + 1 < pages.length →
      ((build_page_layout dpi pages).getD (i + 1) (0, 0, 0)).1 =
        ((build_page_layout dpi pages).getD i (0, 0, 0)).1 +
          ((build_page_layout dpi pages).getD i (0, 0, 0)).2.2 + PAGE_GAP) ∧
    ((build_page_layout dpi pages).map (fun e => e.1)).Chain' (· < ·) := by
  refine ⟨?_, ?_, ?_, ?_, ?_⟩
  · cases pages with
    | nil => rfl
    | cons p rest =>
      exact (buildPageLayoutAux_sizes dpi 0 (p :: rest) 0 (by simp)).1
  · intro hne
    cases pages with
    | nil => exact absurd rfl hne
    | cons p rest => obtain ⟨w, h⟩ := p; rfl
  · intro i hi
    exact ⟨(buildPageLayoutAux_sizes dpi 0 pages i hi).2.1,
           (buildPageLayoutAux_sizes dpi 0 pages i hi).2.2⟩
  · exact buildPageLayoutAux_offset_step dpi 0 pages
  · exact buildPageLayoutAux_chain dpi hd 0 pages hh

/-- Witness for C6 (amended): the layout of two 100.6 × 100.6 pt pages at
DPI 72 has length 2, first offset 0, widths/heights 100, second offset
0 + 100 + 20 = 120, and strictly increasing offsets. -/
theorem build_page_layout_spec_witness :
    (build_page_layout 72 [((503:ℚ)/5, (503:ℚ)/5), ((503:ℚ)/5, (503:ℚ)/5)]).length = 2 ∧
    (([((503:ℚ)/5, (503:ℚ)/5), ((503:ℚ)/5, (503:ℚ)/5)] ≠ ([] : List (ℚ × ℚ))) →
      ((build_page_layout 72 [((503:ℚ)/5, (503:ℚ)/5), ((503:ℚ)/5, (503:ℚ)/5)]).getD 0
        (0, 0, 0)).1 = 0) ∧
    (∀ i, i < ([((503:ℚ)/5, (503:ℚ)/5), ((503:ℚ)/5, (503:ℚ)/5)] : List (ℚ × ℚ)).length →
      ((build_page_layout 72 [((503:ℚ)/5, (503:ℚ)/5), ((503:ℚ)/5, (503:ℚ)/5)]).getD i
        (0, 0, 0)).2.1 =
        pagePixelSize 72 (([((503:ℚ)/5, (503:ℚ)/5), ((503:ℚ)/5, (503:ℚ)/5)] :
          List (ℚ × ℚ)).getD i (0, 0)).1 ∧
      ((build_page_layout 72 [((503:ℚ)/5, (503:ℚ)/5), ((503:ℚ)/5, (503:ℚ)/5)]).getD i
        (0, 0, 0)).2.2 =
        pagePixelSize 72 (([((503:ℚ)/5, (503:ℚ)/5), ((503:ℚ)/5, (503:ℚ)/5)] :
          List (ℚ × ℚ)).getD i (0, 0)).2) ∧
    (∀ i, i + 1 < ([((503:ℚ)/5, (503:ℚ)/5), ((503:ℚ)/5, (503:ℚ)/5)] :
        List (ℚ × ℚ)).length →
      ((build_page_layout 72 [((503:ℚ)/5, (503:ℚ)/5), ((503:ℚ)/5, (503:ℚ)/5)]).getD
        (i + 1) (0, 0, 0)).1 =
        ((build_page_layout 72 [((503:ℚ)/5, (503:ℚ)/5), ((503:ℚ)/5, (503:ℚ)/5)]).getD i
          (0, 0, 0)).1 +
        ((build_page_layout 72 [((503:ℚ)/5, (503:ℚ)/5), ((503:ℚ)/5, (503:ℚ)/5)]).getD i
          (0, 0, 0)).2.2 + PAGE_GAP) ∧
    ((build_page_layout 72 [((503:ℚ)/5, (503:ℚ)/5), ((503:ℚ)/5, (503:ℚ)/5)]).map
      (fun e => e.1)).Chain' (· < ·) :=
  build_page_layout_spec 72 [((503:ℚ)/5, (503:ℚ)/5), ((503:ℚ)/5, (503:ℚ)/5)]
    (by norm_num) (by intro p hp; fin_cases hp <;> norm_num)

/-! ### Transient scene undo/redo (src/graphics_view.py, `undo` / `redo`)

The transient stack entries are `{action: add|remove, items: [...]}` and
undo/redo toggle scene membership of the entry's item set, moving the entry
to the opposite stack.  Python `list.append`/`list.pop` at the end are
modelled with the most recent entry at the head of a Lean list; scene items
are identified by natural numbers and the scene is the list of item ids it
contains (`QGraphicsScene.addItem` is a no-op on an item already in the
scene, `removeItem` is guarded by `item.scene() is not None`). -/

inductive TransAction
  | add
  | remove
deriving DecidableEq

structure TransEntry where
  action : TransAction
  items : List ℕ
deriving DecidableEq

/-- `scene.addItem(item)`: no-op when the item is already in the scene. -/
def sceneAddItem (i : ℕ) (s : List ℕ) : List ℕ := if i ∈ s then s else s ++ [i]

/-- `scene.removeItem(item)` guarded by `item.scene() is not None`. -/
def sceneRemoveItem (i : ℕ) (s : List ℕ) : List ℕ := s.erase i

structure ViewState where
  undoStack : List TransEntry
  redoStack : List TransEntry
  scene : List ℕ
deriving DecidableEq

def can_undo (v : ViewState) : Bool := !v.undoStack.isEmpty

def can_redo (v : ViewState) : Bool := !v.redoStack.isEmpty

/-- `PDFGraphicsView.undo`. -/
def view_undo (v : ViewState) : ViewState :=
  match v.undoStack with
  | [] => v
  | e :: rest =>
    match e.action with
    | .add =>
      { undoStack := rest, redoStack := e :: v.redoStack,
        scene := e.items.foldl (fun s i => sceneRemoveItem i s) v.scene }
    | .remove =>
      { undoStack := rest, redoStack := e :: v.redoStack,
        scene := e.items.foldl (fun s i => sceneAddItem i s) v.scene }

/-- `PDFGraphicsView.redo`. -/
def view_redo (v : ViewState) : ViewState :=
  match v.redoStack with
  | [] => v
  | e :: rest =>
    match e.action with
    | .add =>
      { undoStack := e :: v.undoStack, redoStack := rest,
        scene := e.items.foldl (fun s i => sceneAddItem i s) v.scene }
    | .remove =>
      { undoStack := e :: v.undoStack, redoStack := rest,
        scene := e.items.foldl (fun s i => sceneRemoveItem i s) v.scene }

/-! ### Document snapshot undo/redo and top-level dispatch
(src/main_window.py, `_push_doc_snapshot` / `_doc_undo` / `_doc_redo` /
`_undo` / `_redo`)

```
def _push_doc_snapshot(self, label=""):
    if not self._doc:
        return
    data = self._doc.tobytes(deflate=True, garbage=0)
    self._doc_undo_stack.append((label, data))
    if len(self._doc_undo_stack) > self._doc_undo_limit:
        self._doc_undo_stack.pop(0)
    self._doc_redo_stack.clear()
```
with `self._doc_undo_limit = 10`.  Document bytes are modelled as naturals
(serialization is the identity on the model document). -/

def docUndoLimit : ℕ := 10

structure WindowState where
  view : ViewState
  docUndoStack : List (String × ℕ)
  docRedoStack : List (String × ℕ)
  doc : Option ℕ
deriving DecidableEq

/-- `_push_doc_snapshot`: most recent snapshot at the head; `pop(0)` drops the
oldest entry, i.e. the last of the Lean list. -/
def push_doc_snapshot (label : String) (w : WindowState) : WindowState :=
  match w.doc with
  | none => w
  | some d =>
    let u := (label, d) :: w.docUndoStack
    let u := if docUndoLimit < u.length then u.dropLast else u
    { w with docUndoStack := u, docRedoStack := [] }

/-- `_doc_undo`: swap the live document with the popped snapshot, saving the
pre-swap bytes on the redo stack. -/
def doc_undo (w : WindowState) : WindowState :=
  match w.docUndoStack with
  | [] => w
  | (label, old) :: rest =>
    match w.doc with
    | none => w
    | some d =>
      { w with docUndoStack := rest,
               docRedoStack := (label, d) :: w.docRedoStack,
               doc := some old }

/-- `_doc_redo`: symmetric to `_doc_undo`. -/
def doc_redo (w : WindowState) : WindowState :=
  match w.docRedoStack with
  | [] => w
  | (label, nxt) :: rest =>
    match w.doc with
    | none => w
    | some d =>
      { w with docRedoStack := rest,
               docUndoStack := (label, d) :: w.docUndoStack,
               doc := some nxt }

/-- Top-level `_undo`: transient first, then document snapshots, else no-op. -/
def top_undo (w : WindowState) : WindowState :=
  if can_undo w.view then { w with view := view_undo w.view }
  else if w.docUndoStack.isEmpty then w
  else doc_undo w

/-- Top-level `_redo`: symmetric to `_undo`. -/
def top_redo (w : WindowState) : WindowState :=
  if can_redo w.view then { w with view := view_redo w.view }
  else if w.docRedoStack.isEmpty then w
  else doc_redo w

/-- C4. Top-level undo/redo dispatch: `_undo` undoes a transient action
exactly when the transient undo stack is non-empty (leaving the document
stacks and document untouched), falls back to a document-snapshot undo when
the transient stack is empty and the document undo stack is non-empty
(leaving the transient state untouched), and is a no-op when both stacks are
empty; symmetrically for `_redo`. -/
theorem top_undo_redo_dispatch (w : WindowState) :
    (w.view.undoStack ≠ [] →
      top_undo w = { w with view := view_undo w.view }) ∧
    (w.view.undoStack = [] → w.docUndoStack ≠ [] →
      top_undo w = doc_undo w ∧ (top_undo w).view = w.view) ∧
    (w.view.undoStack = [] → w.docUndoStack = [] → top_undo w = w) ∧
    (w.view.redoStack ≠ [] →
      top_redo w = { w with view := view_redo w.view }) ∧
    (w.view.redoStack = [] → w.docRedoStack ≠ [] →
      top_redo w = doc_redo w ∧ (top_redo w).view = w.view) ∧
    (w.view.redoStack = [] → w.docRedoStack = [] → top_redo w = w) := by
  refine ⟨?_, ?_, ?_, ?_, ?_, ?_⟩
  · intro h
    have hc : can_undo w.view = true := by
      simp [can_undo, List.isEmpty_iff, h]
    simp [top_undo, hc]
  · intro h hd
    have hc : can_undo w.view = false := by
      simp [can_undo, List.isEmpty_iff, h]
    have hde : w.docUndoStack.isEmpty = false := by
      simp [List.isEmpty_iff, hd]
    constructor
    · simp [top_undo, hc, hde]
    · simp only [top_undo, hc, Bool.false_eq_true, if_false, hde]
      match hstack : w.docUndoStack with
      | [] => exact absurd hstack hd
      | (label, old) :: rest =>
        simp only [doc_undo, hstack]
        cases w.doc <;> rfl
  · intro h hd
    have hc : can_undo w.view = false := by
      simp [can_undo, List.isEmpty_iff, h]
    have hde : w.docUndoStack.isEmpty = true := by
      simp [List.isEmpty_iff, hd]
    simp [top_undo, hc, hde]
  · intro h
    have hc : can_redo w.view = true := by
      simp [can_redo, List.isEmpty_iff, h]
    simp [top_redo, hc]
  · intro h hd
    have hc : can_redo w.view = false := by
      simp [can_redo, List.isEmpty_iff, h]
    have hde : w.docRedoStack.isEmpty = false := by
      simp [List.isEmpty_iff, hd]
    constructor
    · simp [top_redo, hc, hde]
    · simp only [top_redo, hc, Bool.false_eq_true, if_false, hde]
      match hstack : w.docRedoStack with
      | [] => exact absurd hstack hd
      | (label, nxt) :: rest =>
        simp only [doc_redo, hstack]
        cases w.doc <;> rfl
  · intro h hd
    have hc : can_redo w.view = false := by
      simp [can_redo, List.isEmpty_iff, h]
    have hde : w.docRedoStack.isEmpty = true := by
      simp [List.isEmpty_iff, hd]
    simp [top_redo, hc, hde]

/-- A concrete window state for the C4 witness: empty transient stacks, one
document snapshot on each document stack, document loaded. -/
def c4WitnessState : WindowState :=
  { view := { undoStack := [], redoStack := [], scene := [] },
    docUndoStack := [("watermark", 7)],
    docRedoStack := [("stamp", 9)],
    doc := some 3 }

/-- Witness for C4: on a state with empty transient stacks and non-empty
document stacks, `_undo` performs the document undo and leaves the view
untouched (and symmetrically for `_redo`). -/
theorem top_undo_redo_dispatch_witness :
    (top_undo c4WitnessState = doc_undo c4WitnessState ∧
      (top_undo c4WitnessState).view = c4WitnessState.view) ∧
    (top_redo c4WitnessState = doc_redo c4WitnessState ∧
      (top_redo c4WitnessState).view = c4WitnessState.view) :=
  ⟨(top_undo_redo_dispatch c4WitnessState).2.1 rfl (by decide),
   (top_undo_redo_dispatch c4WitnessState).2.2.2.2.1 rfl (by decide)⟩

/-- C5. The document snapshot undo stack never exceeds 10 entries: with a
document loaded and at most 10 entries on the stack, pushing a snapshot
records the serialized document bytes with the given label as the most
recent entry, keeps the stack at ≤ 10 entries, evicts the oldest entry
exactly when the stack already held 10, and clears the document redo stack. -/
theorem push_doc_snapshot_bounded (label : String) (w : WindowState) (d : ℕ)
    (hdoc : w.doc = some d) (hlen : w.docUndoStack.length ≤ 10) :
    (push_doc_snapshot label w).docUndoStack.length ≤ 10 ∧
    (push_doc_snapshot label w).docUndoStack.head? = some (label, d) ∧
    (push_doc_snapshot label w).docRedoStack = [] ∧
    (w.docUndoStack.length < 10 →
      (push_doc_snapshot label w).docUndoStack = (label, d) :: w.docUndoStack) ∧
    (w.docUndoStack.length = 10 →
      (push_doc_snapshot label w).docUndoStack =
        ((label, d) :: w.docUndoStack).dropLast) := by
  have hrw : push_doc_snapshot label w =
      { w with
        docUndoStack :=
          (if docUndoLimit < ((label, d) :: w.docUndoStack).length
           then ((label, d) :: w.docUndoStack).dropLast
           else (label, d) :: w.docUndoStack),
        docRedoStack := ([] : List (String × ℕ)) } := by
    unfold push_doc_snapshot
    rw [hdoc]
  rw [hrw]
  by_cases h : docUndoLimit < ((label, d) :: w.docUndoStack).length
  · have h10 : w.docUndoStack.length = 10 := by
      simp only [List.length_cons, docUndoLimit] at h
      omega
    rw [if_pos h]
    refine ⟨?_, ?_, rfl, ?_, ?_⟩
    · simp [List.length_dropLast, h10]
    · rw [List.dropLast_cons_of_ne_nil]
      · rfl
      · intro hnil
        rw [hnil] at h10
        simp at h10
    · intro hlt; omega
    · intro _; rfl
  · have hlt : w.docUndoStack.length < 10 := by
      simp only [List.length_cons, docUndoLimit] at h
      omega
    rw [if_neg h]
    refine ⟨?_, rfl, rfl, fun _ => rfl, ?_⟩
    · simp; omega
    · intro he; omega

/-- A concrete window state holding exactly 10 document snapshots. -/
def c5WitnessState : WindowState :=
  { view := { undoStack := [], redoStack := [], scene := [] },
    docUndoStack := (List.range 10).map (fun i => (toString i, i)),
    docRedoStack := [("pending", 99)],
    doc := some 42 }

/-- Witness for C5: pushing an 11th snapshot onto a full 10-entry stack keeps
the bound, stores the new snapshot first, clears the redo stack, and drops
the oldest entry. -/
theorem push_doc_snapshot_bounded_witness :
    (push_doc_snapshot "links" c5WitnessState).docUndoStack.length ≤ 10 ∧
    (push_doc_snapshot "links" c5WitnessState).docUndoStack.head? =
      some ("links", 42) ∧
    (push_doc_snapshot "links" c5WitnessState).docRedoStack = [] ∧
    (c5WitnessState.docUndoStack.length < 10 →
      (push_doc_snapshot "links" c5WitnessState).docUndoStack =
        ("links", 42) :: c5WitnessState.docUndoStack) ∧
    (c5WitnessState.docUndoStack.length = 10 →
      (push_doc_snapshot "links" c5WitnessState).docUndoStack =
        (("links", 42) :: c5WitnessState.docUndoStack).dropLast) :=
  push_doc_snapshot_bounded "links" c5WitnessState 42 rfl (by decide)

/-! ### Tile scheduler and LRU tile cache
(src/main_window.py, `_ensure_visible_tiles` / `_render_tile` /
`_add_tile_to_scene` / `_remove_tile_from_scene` / `_remove_all_tile_items` /
`_trim_tile_cache`)

```
def _ensure_visible_tiles(self):
    ts = self._tile_scene_size()
    generation = self._tile_generation
    ts_key = round(ts, 1)
    if abs(ts - self._current_tile_ss) > 0.05:
        self._remove_all_tile_items()
        self._current_tile_ss = ts
    visible = self._visible_tiles()
    current = set(self._tile_items.keys())
    for key in visible - current:
        if self._tile_generation != generation:
            return  # zoom changed while rendering - abort
        ... cache hit -> move_to_end + place; miss -> render, cache, place ...
    for key in current - visible:
        self._remove_tile_from_scene(key)
    self._trim_tile_cache(visible)

def _trim_tile_cache(self, visible_keys=None):
    ts_key = round(self._tile_scene_size(), 1)
    visible_cache = {(p, r, c, ts_key) for (p, r, c) in visible_keys}
    while len(self._tile_cache) > self._tile_cache_max:
        oldest_key = next(iter(self._tile_cache))
        if oldest_key in visible_cache:
            break  # don't evict visible tiles
        self._tile_cache.pop(oldest_key)
```
with `self._tile_cache_max = 200`.

Renders are synchronous, so one loop iteration (check, render, place) is
atomic with respect to the generation counter; the model lets the
environment bump the generation between iterations (a `bump` flag per work
item), which over-approximates any reentrant zoom/document change the
startup check of each iteration guards against.  Each placed tile is tagged
with the generation current at the moment it is placed, so that staleness
of a placement is expressible. -/

structure TileKey where
  page : ℕ
  row : ℕ
  col : ℕ
deriving DecidableEq

/-- Cache key `(page, row, col, ts_key)`: the tile key plus the rounded
tile-scene-size bucket. -/
def CacheKey : Type := TileKey × ℚ

instance : DecidableEq CacheKey := by
  unfold CacheKey
  infer_instance

/-- The LRU cache in insertion order: oldest entry first; pixel blocks are
modelled as naturals. -/
def TileCache : Type := List (CacheKey × ℕ)

structure SchedState where
  generation : ℕ
  placed : List (TileKey × ℕ)
  cache : List (CacheKey × ℕ)

def cacheLookup (k : CacheKey) (c : List (CacheKey × ℕ)) : Option ℕ :=
  (c.find? (fun e => e.1 = k)).map (fun e => e.2)

/-- `OrderedDict.move_to_end`: the entry moves to the most-recent (last)
position. -/
def cacheMoveToEnd (k : CacheKey) (c : List (CacheKey × ℕ)) : List (CacheKey × ℕ) :=
  match cacheLookup k c with
  | none => c
  | some v => (c.filter (fun e => ¬ e.1 = k)) ++ [(k, v)]

/-- `self._tile_cache[cache_key] = qpixmap` followed by `move_to_end`: fresh
entries go to the most-recent position. -/
def cachePut (k : CacheKey) (v : ℕ) (c : List (CacheKey × ℕ)) : List (CacheKey × ℕ) :=
  (c.filter (fun e => ¬ e.1 = k)) ++ [(k, v)]

/-- `self._tile_items[(page, row, col)] = item`, tagging the placement with
the generation current when it happens. -/
def placePut (k : TileKey) (g : ℕ) (pl : List (TileKey × ℕ)) : List (TileKey × ℕ) :=
  (k, g) :: pl.filter (fun e => ¬ e.1 = k)

/-- The `for key in visible - current` loop of `_ensure_visible_tiles`: each
work item carries a flag saying whether the environment bumped the
generation counter just before this iteration's check. -/
def ensureLoop (render : TileKey → ℕ) (tsKey : ℚ) (captured : ℕ) :
    List (Bool × TileKey) → SchedState → SchedState
  | [], s => s
  | (bump, key) :: rest, s =>
    let s1 := if bump then { s with generation := s.generation + 1 } else s
    if s1.generation ≠ captured then s1
    else
      let ck : CacheKey := (key, tsKey)
      let s2 :=
        match cacheLookup ck s1.cache with
        | some _ =>
          { s1 with cache := cacheMoveToEnd ck s1.cache,
                    placed := placePut key s1.generation s1.placed }
        | none =>
          { s1 with cache := cachePut ck (render key) s1.cache,
                    placed := placePut key s1.generation s1.placed }
      ensureLoop render tsKey captured rest s2

/-- `_trim_tile_cache`: pop the oldest entry while over capacity, stopping as
soon as the oldest entry belongs to the protected (visible) key set. -/
def trim_tile_cache (maxSize : ℕ) (prot : List CacheKey) :
    List (CacheKey × ℕ) → List (CacheKey × ℕ)
  | [] => []
  | (k, v) :: rest =>
    if maxSize < rest.length + 1 then
      if k ∈ prot then (k, v) :: rest
      else trim_tile_cache maxSize prot rest
    else (k, v) :: rest

/-- `self._tile_cache_max = 200`. -/
def tileCacheMax : ℕ := 200

/-- `_ensure_visible_tiles`: capture the generation, clear placed tiles when
the grid changed, run the render loop over the missing visible tiles, remove
the far-away placed tiles, and trim the cache protecting the visible keys. -/
def ensure_visible_tiles (render : TileKey → ℕ) (tsKey : ℚ) (gridChanged : Bool)
    (work : List (Bool × TileKey)) (far : List TileKey) (visible : List TileKey)
    (s : SchedState) : SchedState :=
  let captured := s.generation
  let s0 := if gridChanged then { s with placed := [] } else s
  let s1 := ensureLoop render tsKey captured work s0
  let s2 := { s1 with placed := s1.placed.filter (fun e => ¬ e.1 ∈ far) }
  { s2 with cache := trim_tile_cache tileCacheMax (visible.map (fun k => (k, tsKey))) s2.cache }

lemma ensureLoop_cons (render : TileKey → ℕ) (tsKey : ℚ) (captured : ℕ)
    (bump : Bool) (key : TileKey) (rest : List (Bool × TileKey)) (s : SchedState) :
    ensureLoop render tsKey captured ((bump, key) :: rest) s =
      (let s1 := if bump then { s with generation := s.generation + 1 } else s
       if s1.generation ≠ captured then s1
       else ensureLoop render tsKey captured rest
         (match cacheLookup (key, tsKey) s1.cache with
          | some _ =>
            { s1 with cache := cacheMoveToEnd (key, tsKey) s1.cache,
                      placed := placePut key s1.generation s1.placed }
          | none =>
            { s1 with cache := cachePut (key, tsKey) (render key) s1.cache,
                      placed := placePut key s1.generation s1.placed })) := rfl

lemma ensureLoop_placed_generation (render : TileKey → ℕ) (tsKey : ℚ)
    (captured : ℕ) (work : List (Bool × TileKey)) (s : SchedState)
    (k : TileKey) (g : ℕ)
    (hmem : (k, g) ∈ (ensureLoop render tsKey captured work s).placed) :
    (k, g) ∈ s.placed ∨ g = captured := by
  induction work generalizing s with
  | nil => exact Or.inl hmem
  | cons item rest ih =>
    obtain ⟨bump, key⟩ := item
    rw [ensureLoop_cons] at hmem
    set s1 := if bump then { s with generation := s.generation + 1 } else s with hs1
    have hplaced1 : s1.placed = s.placed := by
      cases bump <;> simp [hs1]
    simp only [] at hmem
    by_cases hg : s1.generation ≠ captured
    · rw [if_pos hg] at hmem
      exact Or.inl (hplaced1 ▸ hmem)
    · rw [if_neg hg] at hmem
      push_neg at hg
      cases hcl : cacheLookup (key, tsKey) s1.cache with
      | some v =>
        rw [hcl] at hmem
        rcases ih _ hmem with hin | hcap
        · simp only [placePut, List.mem_cons, List.mem_filter] at hin
          rcases hin with heq | ⟨hin, _⟩
          · right
            rw [Prod.mk.injEq] at heq
            rw [heq.2]
            exact hg
          · exact Or.inl (hplaced1 ▸ hin)
        · exact Or.inr hcap
      | none =>
        rw [hcl] at hmem
        rcases ih _ hmem with hin | hcap
        · simp only [placePut, List.mem_cons, List.mem_filter] at hin
          rcases hin with heq | ⟨hin, _⟩
          · right
            rw [Prod.mk.injEq] at heq
            rw [heq.2]
            exact hg
          · exact Or.inl (hplaced1 ▸ hin)
        · exact Or.inr hcap

/-- C1. Generation-based cancellation: every tile that `_ensure_visible_tiles`
places into the scene is placed under the generation captured at the start of
the pass (equal to the current generation at the atomic render-and-place
moment); a render whose captured generation differs from the current
generation at completion is discarded, so no tile carrying a stale generation
is ever added — any tile in the resulting scene either predates the pass or
carries the pass's generation. -/
theorem ensure_visible_tiles_no_stale_generation (render : TileKey → ℕ)
    (tsKey : ℚ) (gridChanged : Bool) (work : List (Bool × TileKey))
    (far : List TileKey) (visible : List TileKey) (s : SchedState)
    (k : TileKey) (g : ℕ)
    (hmem : (k, g) ∈ (ensure_visible_tiles render tsKey gridChanged work far
      visible s).placed) :
    (k, g) ∈ s.placed ∨ g = s.generation := by
  unfold ensure_visible_tiles at hmem
  simp only [List.mem_filter] at hmem
  have hloop := ensureLoop_placed_generation render tsKey s.generation work
    (if gridChanged then { s with placed := [] } else s) k g hmem.1
  rcases hloop with hin | hcap
  · by_cases hgc : gridChanged
    · rw [if_pos hgc] at hin
      simp at hin
    · rw [if_neg hgc] at hin
      exact Or.inl hin
  · exact Or.inr hcap

/-- Witness for C1: one missing tile rendered with no interference under
generation 3 — the placed tile either predates the (empty) initial scene or
carries generation 3. -/
theorem ensure_visible_tiles_no_stale_generation_witness :
    ((⟨0, 0, 0⟩, 3) ∈ ([] : List (TileKey × ℕ)) ∨ 3 = 3) :=
  ensure_visible_tiles_no_stale_generation (fun _ => 0) 1 false
    [(false, ⟨0, 0, 0⟩)] [] [⟨0, 0, 0⟩]
    { generation := 3, placed := [], cache := [] } ⟨0, 0, 0⟩ 3 (by decide)

lemma trim_tile_cache_keeps_protected (maxSize : ℕ) (prot : List CacheKey) :
    ∀ cache : List (CacheKey × ℕ), ∀ e ∈ cache, e.1 ∈ prot →
      e ∈ trim_tile_cache maxSize prot cache := by
  intro cache
  induction cache with
  | nil => intro e he _; exact absurd he (List.not_mem_nil e)
  | cons hd rest ih =>
    obtain ⟨k, v⟩ := hd
    intro e he hp
    unfold trim_tile_cache
    by_cases hover : maxSize < rest.length + 1
    · rw [if_pos hover]
      by_cases hk : k ∈ prot
      · rw [if_pos hk]
        exact he
      · rw [if_neg hk]
        rcases List.mem_cons.mp he with heq | hin
        · subst heq
          exact absurd hp hk
        · exact ih e hin hp
    · rw [if_neg hover]
      exact he

lemma trim_tile_cache_suffix (maxSize : ℕ) (prot : List CacheKey) :
    ∀ cache : List (CacheKey × ℕ),
      (trim_tile_cache maxSize prot cache) <:+ cache := by
  intro cache
  induction cache with
  | nil => exact List.suffix_refl _
  | cons hd rest ih =>
    obtain ⟨k, v⟩ := hd
    unfold trim_tile_cache
    by_cases hover : maxSize < rest.length + 1
    · rw [if_pos hover]
      by_cases hk : k ∈ prot
      · rw [if_pos hk]
      · rw [if_neg hk]
        exact ih.trans (List.suffix_cons (k, v) rest)
    · rw [if_neg hover]

lemma trim_tile_cache_over_cap (maxSize : ℕ) (prot : List CacheKey) :
    ∀ cache : List (CacheKey × ℕ),
      maxSize < (trim_tile_cache maxSize prot cache).length →
      ∃ e tl, trim_tile_cache maxSize prot cache = e :: tl ∧ e.1 ∈ prot := by
  intro cache
  induction cache with
  | nil =>
    intro h
    simp [trim_tile_cache] at h
  | cons hd rest ih =>
    obtain ⟨k, v⟩ := hd
    unfold trim_tile_cache
    by_cases hover : maxSize < rest.length + 1
    · rw [if_pos hover]
      by_cases hk : k ∈ prot
      · rw [if_pos hk]
        intro _
        exact ⟨(k, v), rest, rfl, hk⟩
      · rw [if_neg hk]
        exact ih
    · rw [if_neg hover]
      intro h
      simp only [List.length_cons] at h
      omega

/-- C2 (amended). Trimming the tile cache with the visible tile set as
protected keys repeatedly evicts the least-recently-used entry while the
cache holds more than the configured max, stopping as soon as the oldest
remaining entry is protected: protected (visible) entries are never evicted,
only oldest entries are removed (the result is a suffix of the LRU order),
and whenever the trimmed cache still exceeds the max its oldest entry is a
protected one — but the cache can remain over capacity even though younger
unprotected entries are still present. -/
theorem trim_tile_cache_spec (maxSize : ℕ) (prot : List CacheKey)
    (cache : List (CacheKey × ℕ)) :
    (∀ e ∈ cache, e.1 ∈ prot → e ∈ trim_tile_cache maxSize prot cache) ∧
    ((trim_tile_cache maxSize prot cache) <:+ cache) ∧
    (maxSize < (trim_tile_cache maxSize prot cache).length →
      ∃ e tl, trim_tile_cache maxSize prot cache = e :: tl ∧ e.1 ∈ prot) :=
  ⟨trim_tile_cache_keeps_protected maxSize prot cache,
   trim_tile_cache_suffix maxSize prot cache,
   trim_tile_cache_over_cap maxSize prot cache⟩

/-- Witness for C2 (amended): a one-entry cache over a zero cap whose only
entry is protected — the entry survives trimming, the result is a suffix,
and the over-capacity result starts with a protected entry. -/
theorem trim_tile_cache_spec_witness :
    ((((⟨0, 0, 0⟩ : TileKey), (1:ℚ)), 5) ∈
      trim_tile_cache 0 [((⟨0, 0, 0⟩ : TileKey), (1:ℚ))]
        [((((⟨0, 0, 0⟩ : TileKey), (1:ℚ)), 5))]) ∧
    (∃ e tl, trim_tile_cache 0 [((⟨0, 0, 0⟩ : TileKey), (1:ℚ))]
        [((((⟨0, 0, 0⟩ : TileKey), (1:ℚ)), 5))] = e :: tl ∧
      e.1 ∈ [((⟨0, 0, 0⟩ : TileKey), (1:ℚ))]) :=
  ⟨(trim_tile_cache_spec 0 _ _).1 _ (by decide) (by decide),
   (trim_tile_cache_spec 0 _ _).2.2 (by decide)⟩

/-- Protected cache key for the C2 counterexample: a visible tile whose cache
entry is the oldest in LRU order (reachable: a tile that stayed visible and
placed across passes is never touched in the cache, so it keeps its old
position). -/
def c2ProtKey : CacheKey := ((⟨999, 0, 0⟩ : TileKey), (1:ℚ))

def c2Prot : List CacheKey := [c2ProtKey]

/-- A 201-entry cache whose oldest entry is the protected one, followed by
200 unprotected entries. -/
def c2Cache : List (CacheKey × ℕ) :=
  (c2ProtKey, 0) :: (List.range 200).map (fun i => (((⟨i, 0, 0⟩ : TileKey), (1:ℚ)), 0))

/-- C2 counterexample: with the configured max of 200, trimming the 201-entry
cache `c2Cache` (protected set: just the visible `c2ProtKey`, which happens
to be the LRU-oldest entry) removes nothing: the result still has 201 > 200
entries although 200 of them are unprotected, refuting "removes
least-recently-used entries not in the protected set until the cache size is
≤ the configured max (200) / exceeds capacity only to protect visible
tiles". -/
theorem trim_tile_cache_soft_cap_counterexample :
    ¬ ((trim_tile_cache tileCacheMax c2Prot c2Cache).length ≤ tileCacheMax ∨
       ∀ e ∈ trim_tile_cache tileCacheMax c2Prot c2Cache, e.1 ∈ c2Prot) := by
  have hover : tileCacheMax <
      ((List.range 200).map
        (fun i => (((⟨i, 0, 0⟩ : TileKey), (1:ℚ)), 0))).length + 1 := by
    simp [tileCacheMax]
  have hkp : c2ProtKey ∈ c2Prot := List.mem_singleton.mpr rfl
  have htrim : trim_tile_cache tileCacheMax c2Prot c2Cache = c2Cache := by
    unfold c2Cache
    unfold trim_tile_cache
    rw [if_pos hover, if_pos hkp]
  have hlen : c2Cache.length = 201 := by
    simp [c2Cache]
  intro h
  rcases h with h | h
  · rw [htrim, hlen] at h
    simp [tileCacheMax] at h
  · have hm : ((((⟨0, 0, 0⟩ : TileKey), (1:ℚ)), 0)) ∈ c2Cache := by
      unfold c2Cache
      refine List.mem_cons_of_mem _ ?_
      refine List.mem_map.mpr ⟨0, ?_, rfl⟩
      simp
    have hp := h _ (htrim ▸ hm)
    exact absurd hp (by decide)

/-! ### Text-block edit model
(src/graphics_view.py, `push_edit_undo` / `edit_undo` / `edit_redo`;
src/src/items/text_block.py, `EditableTextBlockItem`)

Blocks are identified by naturals in an association list.  A block's model
state mirrors `EditableTextBlockItem`: static rect/font/colour data, the
mutable text item content, the deleted flag, the drag position, and the
scene / `_edit_text_blocks` membership flags.  `mark_deleted` sets the
deleted flag and replaces the displayed text with "[DELETED]"
(`_update_visual`); `set_current_text` sets the text and clears the deleted
flag; `restore_original` resets text, position and the deleted flag.

```
def push_edit_undo(self, action, data):
    self._edit_undo_stack.append({"action": action, "data": data})
    self._edit_redo_stack.clear()
    if action == "copy":
        item = data.get("item")
        if isinstance(item, EditableTextBlockItem):
            self._edit_clipboard = item.clone_block()
        self._edit_undo_stack.pop()
```

`edit_undo` for a "move" entry rewrites the entry data with old/new
positions swapped before pushing it onto the redo stack; `edit_redo` for a
"move" entry rewrites the data unchanged. -/

structure Block where
  pageNum : ℕ
  rect : ℚ × ℚ × ℚ × ℚ
  text : String
  original : String
  fontSize : ℚ
  fontName : String
  color : ℚ × ℚ × ℚ
  yOffset : ℚ
  scale : ℚ
  deleted : Bool
  pos : ℚ × ℚ
  inScene : Bool
  inList : Bool
deriving DecidableEq

def currentText (b : Block) : String := if b.deleted then "" else b.text

/-- `set_current_text`: sets the text item content and clears the deleted
flag. -/
def setCurrentText (t : String) (b : Block) : Block :=
  { b with text := t, deleted := false }

/-- `mark_deleted`: sets the deleted flag; `_update_visual` then replaces the
text item content with "[DELETED]". -/
def markDeleted (b : Block) : Block :=
  { b with deleted := true, text := "[DELETED]" }

/-- `restore_original`: clears the deleted flag, restores the original text
and zeroes the drag position. -/
def restoreOriginal (b : Block) : Block :=
  { b with deleted := false, text := b.original, pos := (0, 0) }

/-- `clone_block`: the clipboard snapshot dict. -/
structure Clip where
  pageNum : ℕ
  rect : ℚ × ℚ × ℚ × ℚ
  text : String
  fontSize : ℚ
  fontName : String
  color : ℚ × ℚ × ℚ
  yOffset : ℚ
  scale : ℚ
deriving DecidableEq

def cloneBlock (b : Block) : Clip :=
  { pageNum := b.pageNum, rect := b.rect, text := currentText b,
    fontSize := b.fontSize, fontName := b.fontName, color := b.color,
    yOffset := b.yOffset, scale := b.scale }

inductive EditAction
  | move
  | copy
  | deleteText
  | restore
  | paste
  | deleteKey
deriving DecidableEq

/-- One `{"action": ..., "data": {...}}` entry of the edit undo/redo stacks;
fields unused by an action are ignored for it. -/
structure EditEntry where
  action : EditAction
  item : ℕ
  oldPos : ℚ × ℚ
  newPos : ℚ × ℚ
  oldText : String
  wasDeleted : Bool
deriving DecidableEq

structure EditState where
  blocks : List (ℕ × Block)
  undoStack : List EditEntry
  redoStack : List EditEntry
  clipboard : Option Clip
deriving DecidableEq

def getBlock (i : ℕ) (bs : List (ℕ × Block)) : Option Block :=
  (bs.find? (fun p => p.1 = i)).map (fun p => p.2)

def updateBlock (i : ℕ) (f : Block → Block) (bs : List (ℕ × Block)) :
    List (ℕ × Block) :=
  bs.map (fun p => if p.1 = i then (p.1, f p.2) else p)

/-- `PDFGraphicsView.push_edit_undo`. -/
def push_edit_undo (e : EditEntry) (s : EditState) : EditState :=
  let s1 : EditState :=
    { s with undoStack := e :: s.undoStack, redoStack := [] }
  if e.action = EditAction.copy then
    { s1 with
      undoStack := s1.undoStack.tail,
      clipboard :=
        (match getBlock e.item s.blocks with
         | some b => some (cloneBlock b)
         | none => s1.clipboard) }
  else s1

/-- `PDFGraphicsView.edit_undo`. -/
def edit_undo (s : EditState) : EditState :=
  match s.undoStack with
  | [] => s
  | e :: rest =>
    match e.action with
    | .move =>
      { s with
        blocks := updateBlock e.item (fun b => { b with pos := e.oldPos }) s.blocks,
        undoStack := rest,
        redoStack := { e with oldPos := e.newPos, newPos := e.oldPos } :: s.redoStack }
    | .deleteText =>
      { s with
        blocks := updateBlock e.item
          (fun b => setCurrentText e.oldText { b with deleted := false }) s.blocks,
        undoStack := rest,
        redoStack := e :: s.redoStack }
    | .restore =>
      { s with
        blocks := updateBlock e.item
          (fun b =>
            if e.wasDeleted then markDeleted b
            else { setCurrentText e.oldText b with pos := e.oldPos }) s.blocks,
        undoStack := rest,
        redoStack := e :: s.redoStack }
    | .paste =>
      { s with
        blocks := updateBlock e.item
          (fun b => { b with inScene := false, inList := false }) s.blocks,
        undoStack := rest,
        redoStack := e :: s.redoStack }
    | .deleteKey =>
      { s with
        blocks := updateBlock e.item
          (fun b => { b with inScene := true, inList := true }) s.blocks,
        undoStack := rest,
        redoStack := e :: s.redoStack }
    | .copy =>
      { s with undoStack := rest, redoStack := e :: s.redoStack }

/-- `PDFGraphicsView.edit_redo`. -/
def edit_redo (s : EditState) : EditState :=
  match s.redoStack with
  | [] => s
  | e :: rest =>
    match e.action with
    | .move =>
      { s with
        blocks := updateBlock e.item (fun b => { b with pos := e.newPos }) s.blocks,
        redoStack := rest,
        undoStack := { e with oldPos := e.oldPos, newPos := e.newPos } :: s.undoStack }
    | .deleteText =>
      { s with
        blocks := updateBlock e.item markDeleted s.blocks,
        redoStack := rest,
        undoStack := e :: s.undoStack }
    | .restore =>
      { s with
        blocks := updateBlock e.item restoreOriginal s.blocks,
        redoStack := rest,
        undoStack := e :: s.undoStack }
    | .paste =>
      { s with
        blocks := updateBlock e.item
          (fun b => { b with inScene := true, inList := true }) s.blocks,
        redoStack := rest,
        undoStack := e :: s.undoStack }
    | .deleteKey =>
      { s with
        blocks := updateBlock e.item
          (fun b => { b with inScene := false, inList := false }) s.blocks,
        redoStack := rest,
        undoStack := e :: s.undoStack }
    | .copy =>
      { s with redoStack := rest, undoStack := e :: s.undoStack }

/-- The block used by the C3 failing input: an unmodified block at the
origin. -/
def c3Block : Block :=
  { pageNum := 0, rect := (0, 0, 100, 20), text := "hello",
    original := "hello", fontSize := 11, fontName := "helv",
    color := (0, 0, 0), yOffset := 0, scale := 2,
    deleted := false, pos := (0, 0), inScene := true, inList := true }

/-- The C3 failing input: the reachable state right after dragging block 0
from (0,0) to (10,0) and pressing undo once — the block sits at (0,0) and
the redo stack holds the move entry whose old/new positions were swapped by
`edit_undo`. -/
def c3State : EditState :=
  { blocks := [(0, c3Block)],
    undoStack := [],
    redoStack := [{ action := EditAction.move, item := 0,
                    oldPos := (10, 0), newPos := (0, 0),
                    oldText := "", wasDeleted := false }],
    clipboard := none }

/-- C3 (code bug, failing input): on the reachable state `c3State`,
redo-then-undo does not return the state: `edit_redo` re-applies nothing
(the entry's positions were swapped by the preceding undo, so its `new_pos`
is the already-current position) and the following `edit_undo` moves the
block to (10,0) and swaps the stored pair back, so `Undo(Redo(x)) ≠ x` for
the move action — the asymmetric entry rewriting between `edit_undo`
(swaps `old_pos`/`new_pos`) and `edit_redo` (keeps them) breaks the
involution the claim states. -/
theorem edit_undo_redo_move_not_involutive :
    edit_undo (edit_redo c3State) ≠ c3State := by
  decide

/-- C9 (amended). The copy action only snapshots the block into the
clipboard: `push_edit_undo` with a copy entry leaves the edit undo stack and
all blocks unchanged and stores the clone of the copied block in the
clipboard — but it clears the edit redo stack (the entry append runs the
shared `redo.clear()` before the copy branch pops the entry again). -/
theorem push_edit_undo_copy_spec (e : EditEntry) (s : EditState) (b : Block)
    (hact : e.action = EditAction.copy)
    (hfound : getBlock e.item s.blocks = some b) :
    (push_edit_undo e s).undoStack = s.undoStack ∧
    (push_edit_undo e s).redoStack = [] ∧
    (push_edit_undo e s).clipboard = some (cloneBlock b) ∧
    (push_edit_undo e s).blocks = s.blocks := by
  unfold push_edit_undo
  rw [if_pos hact, hfound]
  exact ⟨rfl, rfl, rfl, rfl⟩

/-- The state used by the C9 witness and counterexample: block 0 present,
one entry on each edit stack, empty clipboard. -/
def c9State : EditState :=
  { blocks := [(0, c3Block)],
    undoStack := [{ action := EditAction.deleteText, item := 0,
                    oldPos := (0, 0), newPos := (0, 0),
                    oldText := "hello", wasDeleted := false }],
    redoStack := [{ action := EditAction.paste, item := 0,
                    oldPos := (0, 0), newPos := (0, 0),
                    oldText := "", wasDeleted := false }],
    clipboard := none }

/-- The copy entry pushed for block 0. -/
def c9CopyEntry : EditEntry :=
  { action := EditAction.copy, item := 0, oldPos := (0, 0), newPos := (0, 0),
    oldText := "", wasDeleted := false }

/-- Witness for C9 (amended): copying block 0 in `c9State` leaves the undo
stack and blocks unchanged, clears the redo stack, and stores the clone. -/
theorem push_edit_undo_copy_spec_witness :
    (push_edit_undo c9CopyEntry c9State).undoStack = c9State.undoStack ∧
    (push_edit_undo c9CopyEntry c9State).redoStack = [] ∧
    (push_edit_undo c9CopyEntry c9State).clipboard = some (cloneBlock c3Block) ∧
    (push_edit_undo c9CopyEntry c9State).blocks = c9State.blocks :=
  push_edit_undo_copy_spec c9CopyEntry c9State c3Block rfl (by decide)

/-- C9 counterexample: in `c9State` the edit redo stack is non-empty, and the
copy action clears it, so "after a copy both the edit undo stack and the
edit redo stack are unchanged" fails. -/
theorem push_edit_undo_copy_redo_cleared :
    (push_edit_undo c9CopyEntry c9State).redoStack ≠ c9State.redoStack := by
  decide

/-! ### Text selection (src/graphics_view.py, `set_word_data` /
`_nearest_word_index` / `_update_text_selection_linear`)

```
def set_word_data(self, word_data):
    self._word_data = sorted(word_data, key=lambda w: (w[8], w[5], w[6], w[7]))

def _nearest_word_index(self, pos):
    best_idx = 0
    best_dist = float('inf')
    for i, wd in enumerate(self._word_data):
        cx = (wd[0] + wd[2]) / 2
        cy = (wd[1] + wd[3]) / 2
        d = (px - cx) ** 2 + (py - cy) ** 2
        if d < best_dist:
            best_dist = d
            best_idx = i
    return best_idx

def _update_text_selection_linear(self, start_pos, current_pos):
    idx_a = self._nearest_word_index(start_pos)
    idx_b = self._nearest_word_index(current_pos)
    lo, hi = min(idx_a, idx_b), max(idx_a, idx_b)
    for i in range(lo, hi + 1): ... select self._word_data[i] ...
```

A word box is `(x0, y0, x1, y1, text, block_no, line_no, word_no, page)`;
the sort key `(w[8], w[5], w[6], w[7])` is the lexicographic reading order
`(page, block, line, word)`.  The model returns the selected word list. -/

structure Word where
  x0 : ℚ
  y0 : ℚ
  x1 : ℚ
  y1 : ℚ
  text : String
  block : ℕ
  line : ℕ
  word : ℕ
  page : ℕ
deriving DecidableEq

/-- Python tuple comparison on the sort key `(page, block, line, word)`. -/
def wordLe (u v : Word) : Bool :=
  decide (u.page < v.page) ||
  (decide (u.page = v.page) &&
    (decide (u.block < v.block) ||
      (decide (u.block = v.block) &&
        (decide (u.line < v.line) ||
          (decide (u.line = v.line) && decide (u.word ≤ v.word))))))

/-- `set_word_data`: stable sort by the reading-order key. -/
def set_word_data (raw : List Word) : List Word :=
  raw.mergeSort wordLe

/-- Squared Euclidean distance from a point to a word box's center. -/
def sqDist (p : ℚ × ℚ) (w : Word) : ℚ :=
  (p.1 - (w.x0 + w.x1) / 2) ^ 2 + (p.2 - (w.y0 + w.y1) / 2) ^ 2

/-- The scan of `_nearest_word_index`: `none` is the initial infinite best
distance, which any real distance beats. -/
def nearestAux (p : ℚ × ℚ) : List Word → ℕ → ℕ → Option ℚ → ℕ
  | [], _, best, _ => best
  | w :: rest, i, best, bd =>
    let d := sqDist p w
    match bd with
    | none => nearestAux p rest (i + 1) i (some d)
    | some bdv =>
      if d < bdv then nearestAux p rest (i + 1) i (some d)
      else nearestAux p rest (i + 1) best (some bdv)

def nearest_word_index (ws : List Word) (p : ℚ × ℚ) : ℕ :=
  nearestAux p ws 0 0 none

/-- `_update_text_selection_linear` restricted to its selection result: the
inclusive slice `[min idx_a idx_b, max idx_a idx_b]` of the word list. -/
def update_text_selection_linear (ws : List Word) (startPos currentPos : ℚ × ℚ) :
    List Word :=
  (ws.drop (min (nearest_word_index ws startPos) (nearest_word_index ws currentPos))).take
    (max (nearest_word_index ws startPos) (nearest_word_index ws currentPos) + 1 -
      min (nearest_word_index ws startPos) (nearest_word_index ws currentPos))

lemma wordLe_trans (a b c : Word) (hab : wordLe a b = true)
    (hbc : wordLe b c = true) : wordLe a c = true := by
  simp only [wordLe, Bool.or_eq_true, Bool.and_eq_true, decide_eq_true_eq] at *
  omega

lemma wordLe_total (a b : Word) : (wordLe a b || wordLe b a) = true := by
  simp only [wordLe, Bool.or_eq_true, Bool.and_eq_true, decide_eq_true_eq]
  omega

/-- C8. Text range selection is order-independent:
`_update_text_selection_linear(a, b)` selects exactly the words that
`_update_text_selection_linear(b, a)` selects — both points resolve to
nearest-word indices and the inclusive index range `[min, max]` is taken
over the word list, which `set_word_data` keeps sorted in reading order by
`(page, block, line, word)`, so the selected span does not depend on the
drag direction. -/
theorem update_text_selection_linear_symm (raw : List Word) (a b : ℚ × ℚ) :
    update_text_selection_linear (set_word_data raw) a b =
      update_text_selection_linear (set_word_data raw) b a ∧
    List.Pairwise (fun u v => wordLe u v = true) (set_word_data raw) := by
  constructor
  · unfold update_text_selection_linear
    rw [Nat.min_comm, Nat.max_comm]
  · exact List.sorted_mergeSort wordLe_trans wordLe_total raw
